import Mathlib

/-!
Shallow embedding of the replay-channel library.

The library (src/lib.rs, src/sender.rs, src/receiver.rs, src/shared_state.rs)
implements a multi-producer, multi-consumer channel in which each receiver
first replays the whole message history before seeing live messages.

Embedding choices:
* `SharedState.messages` is the `VecDeque<T>` message log, modelled as a
  `List T` (push_back = append on the right).
* `SharedState.condvars` is the registry of per-receiver wake handles; each
  handle is modelled by its "signaled" flag (`Bool`).  Handle identity is the
  position in the registry list.
* `Receiver` is the pair (wake-handle position, atomic cursor).
* A single sequential attempt of `Receiver::receive` is a partial function:
  `some (value, advanced receiver)` in the Draining state and `none` in the
  Waiting state, where the Rust code suspends on its wake handle.
* `Sender::send` takes a `poisoned` flag modelling whether the mutex around
  the shared state was poisoned; `lock().unwrap_or_else(|p| p.into_inner())`
  recovers the guard either way.
* The compare-and-advance retry loop on the cursor (multiple concurrent
  callers on one receiver handle) is modelled separately by `cas` /
  `runAttempts`, which executes an arbitrary schedule of compare-exchange
  attempts, each with an arbitrarily stale observed cursor value.
-/

namespace ReplayChannel

/-- Structure `SharedState<T>` from src/shared_state.rs: the message log plus
the registry of wake handles (`condvars`), one per receiver, each represented
by its signaled flag. -/
structure SharedState (T : Type) where
  messages : List T
  condvars : List Bool
  deriving Repr, DecidableEq

/-- Structure `Receiver<T>` from src/receiver.rs: the position of the
registered wake handle in the registry, and the cursor (the `index` field, an
`AtomicUsize`). -/
structure Receiver where
  notify : Nat
  index : Nat
  deriving Repr, DecidableEq

/-- Method `SharedState::add_receiver` (src/shared_state.rs lines 18-22):
pushes a fresh (unsignaled) wake handle onto the registry and returns it; the
returned handle is the clone of the one stored, i.e. the same registry
position. -/
def SharedState.add_receiver (s : SharedState T) : SharedState T × Nat :=
  ({ s with condvars := s.condvars ++ [false] }, s.condvars.length)

/-- Constructor `Receiver::new` (src/receiver.rs lines 40-50): registers a
wake handle via `add_receiver` and starts the cursor at 0. -/
def Receiver.new (s : SharedState T) : SharedState T × Receiver :=
  let p := s.add_receiver
  (p.1, { notify := p.2, index := 0 })

/-- Result of `Mutex::lock`: either a clean guard or a `PoisonError` that
still carries the guard (`into_inner`). -/
inductive LockAcq (A : Type) where
  | ok (guard : A)
  | poisonErr (guard : A)
  deriving Repr, DecidableEq

/-- Acquiring the shared-state mutex; `poisoned` says whether another thread
panicked while holding it. -/
def mutexLock (poisoned : Bool) (s : A) : LockAcq A :=
  if poisoned then .poisonErr s else .ok s

/-- The call `unwrap_or_else(|poisoned| poisoned.into_inner())` from
src/sender.rs line 12: recover the guard whether or not the lock was
poisoned. -/
def LockAcq.unwrapOrRecover : LockAcq A → A
  | .ok g => g
  | .poisonErr g => g

/-- Method `Sender::send` (src/sender.rs lines 10-18): acquire the lock
(recovering from poisoning), push the message at the back of the log, then
signal every wake handle in the registry. -/
def Sender.send (poisoned : Bool) (s : SharedState T) (m : T) : SharedState T :=
  let state := (mutexLock poisoned s).unwrapOrRecover
  { messages := state.messages ++ [m],
    condvars := state.condvars.map (fun _ => true) }

/-- One sequential attempt of `Receiver::receive` (src/receiver.rs
lines 16-37) by a single caller: load the cursor; if it has reached the log
length the caller suspends on its wake handle (`none`); otherwise the
compare-exchange succeeds uncontended, the cursor advances by one and the
entry at the old cursor is cloned out. -/
def Receiver.receive (r : Receiver) (s : SharedState T) : Option (T × Receiver) :=
  if h : r.index < s.messages.length then
    some (s.messages[r.index], { r with index := r.index + 1 })
  else
    none

/-- Iterated receive: `n` consecutive successful `receive` calls on one
receiver against a fixed shared state; `none` if any of them would suspend. -/
def Receiver.receiveN (r : Receiver) (s : SharedState T) : Nat → Option (List T × Receiver)
  | 0 => some ([], r)
  | n + 1 =>
    match r.receive s with
    | some (v, r1) =>
      match r1.receiveN s n with
      | some (vs, r2) => some (v :: vs, r2)
      | none => none
    | none => none

/-- Sending a whole list of messages in order (healthy lock). -/
def sendAll (s : SharedState T) (ms : List T) : SharedState T :=
  ms.foldl (Sender.send false) s

/-- A whole-system configuration: the shared state together with every live
receiver handle, identified by creation order. -/
structure Config (T : Type) where
  state : SharedState T
  receivers : List Receiver
  deriving Repr, DecidableEq

/-- The operations the library exposes, as observed by the shared system:
a send (with the poison status of the lock at that moment), the creation of
a receiver (`ReplayChannel::receiver`), and one successful-or-suspending
receive attempt by the `i`-th receiver. -/
inductive Op (T : Type) where
  | send (poisoned : Bool) (m : T)
  | newReceiver
  | recv (i : Nat)
  deriving Repr, DecidableEq

/-- Apply one operation to a configuration.  A `recv` on a receiver in the
Waiting state (or an out-of-range receiver id) leaves the configuration
unchanged: the real call suspends without touching shared state. -/
def Config.applyOp (c : Config T) : Op T → Config T
  | .send p m => { c with state := Sender.send p c.state m }
  | .newReceiver =>
    let pr := Receiver.new c.state
    { state := pr.1, receivers := c.receivers ++ [pr.2] }
  | .recv i =>
    match c.receivers[i]? with
    | some r =>
      match r.receive c.state with
      | some (_, r1) => { c with receivers := c.receivers.set i r1 }
      | none => c
    | none => c

/-- Constructor `ReplayChannel::new`: empty log, empty registry, no
receivers. -/
def Config.init (T : Type) : Config T := ⟨⟨[], []⟩, []⟩

/-- Run a sequence of operations from the freshly created channel. -/
def Config.run (ops : List (Op T)) : Config T :=
  ops.foldl Config.applyOp (Config.init T)

/-- One compare-exchange attempt on the cursor (src/receiver.rs line 25):
`compare_exchange(observed, observed + 1)`.  Returns the claimed index (if
the attempt won) and the new cursor value. -/
def cas (cursor observed : Nat) : Option Nat × Nat :=
  if observed = cursor then (some cursor, cursor + 1) else (none, cursor)

/-- Execute a schedule of compare-exchange attempts by arbitrarily many
racing callers of one receiver handle; each list entry is the cursor value
that caller had observed (possibly stale).  Returns the indices claimed by
the winning attempts, in schedule order, and the final cursor. -/
def runAttempts : Nat → List Nat → List Nat × Nat
  | c, [] => ([], c)
  | c, o :: rest =>
    let step := cas c o
    let tail := runAttempts step.2 rest
    (match step.1 with
     | some i => i :: tail.1
     | none => tail.1, tail.2)

/-- The per-receiver cursor bound: no cursor ever passes the end of the log. -/
def Config.Inv (c : Config T) : Prop :=
  ∀ r ∈ c.receivers, r.index ≤ c.state.messages.length

/-! ## Basic lemmas about the embedded operations -/

theorem mutexLock_unwrapOrRecover (p : Bool) (s : A) :
    (mutexLock p s).unwrapOrRecover = s := by
  cases p <;> rfl

theorem Sender.send_messages (p : Bool) (s : SharedState T) (m : T) :
    (Sender.send p s m).messages = s.messages ++ [m] := by
  simp [Sender.send, mutexLock_unwrapOrRecover]

theorem Sender.send_condvars (p : Bool) (s : SharedState T) (m : T) :
    (Sender.send p s m).condvars = s.condvars.map (fun _ => true) := by
  simp [Sender.send, mutexLock_unwrapOrRecover]

theorem Receiver.receive_eq_some {r : Receiver} {s : SharedState T}
    (h : r.index < s.messages.length) :
    r.receive s = some (s.messages[r.index], { r with index := r.index + 1 }) := by
  simp [Receiver.receive, h]

theorem Receiver.receive_eq_none {r : Receiver} {s : SharedState T}
    (h : s.messages.length ≤ r.index) :
    r.receive s = none := by
  simp [Receiver.receive]
  omega

theorem Receiver.receive_some {r r1 : Receiver} {s : SharedState T} {v : T}
    (h : r.receive s = some (v, r1)) :
    r.index < s.messages.length ∧ s.messages[r.index]? = some v ∧
      r1.index = r.index + 1 ∧ r1.notify = r.notify := by
  unfold Receiver.receive at h
  split at h
  case isTrue hlt =>
    simp only [Option.some.injEq, Prod.mk.injEq] at h
    obtain ⟨hv, hr⟩ := h
    subst hr
    exact ⟨hlt, by simp [List.getElem?_eq_getElem hlt, hv], rfl, rfl⟩
  case isFalse => exact absurd h (by simp)

theorem Receiver.receiveN_some {s : SharedState T} :
    ∀ (k : Nat) (r r2 : Receiver) (vs : List T),
      r.receiveN s k = some (vs, r2) →
      vs = (s.messages.drop r.index).take k ∧ r2.index = r.index + k ∧
        r2.notify = r.notify := by
  intro k
  induction k with
  | zero =>
    intro r r2 vs h
    simp only [Receiver.receiveN, Option.some.injEq, Prod.mk.injEq] at h
    obtain ⟨hv, hr⟩ := h
    subst hr
    simp [← hv]
  | succ n ih =>
    intro r r2 vs h
    rw [Receiver.receiveN] at h
    cases hrec : r.receive s with
    | none => simp [hrec] at h
    | some p =>
      obtain ⟨v, r1⟩ := p
      cases hN : r1.receiveN s n with
      | none => simp [hrec, hN] at h
      | some q =>
        obtain ⟨vs1, rq⟩ := q
        simp only [hrec, hN, Option.some.injEq, Prod.mk.injEq] at h
        obtain ⟨hvs, hr2⟩ := h
        subst hr2
        obtain ⟨hlt, hget, hidx, hnot⟩ := Receiver.receive_some hrec
        obtain ⟨ih1, ih2, ih3⟩ := ih r1 rq vs1 hN
        refine ⟨?_, by omega, by rw [ih3, hnot]⟩
        rw [← hvs, ih1, hidx]
        rw [List.drop_eq_getElem_cons hlt, List.take_succ_cons]
        congr 1
        have hg := List.getElem?_eq_getElem hlt
        rw [hg] at hget
        exact (Option.some.injEq _ _ ▸ hget).symm

theorem Receiver.receiveN_of_le {s : SharedState T} :
    ∀ (k : Nat) (r : Receiver), r.index + k ≤ s.messages.length →
      r.receiveN s k =
        some ((s.messages.drop r.index).take k, { r with index := r.index + k }) := by
  intro k
  induction k with
  | zero => intro r h; simp [Receiver.receiveN]
  | succ n ih =>
    intro r h
    have hlt : r.index < s.messages.length := by omega
    have hr1 : ({ r with index := r.index + 1 } : Receiver).index + n ≤ s.messages.length := by
      simp; omega
    rw [Receiver.receiveN]
    simp only [Receiver.receive_eq_some hlt, ih _ hr1]
    simp only [List.drop_eq_getElem_cons hlt, List.take_succ_cons]
    have hadd : r.index + 1 + n = r.index + (n + 1) := by omega
    rw [hadd]

theorem sendAll_messages (ms : List T) :
    ∀ s : SharedState T, (sendAll s ms).messages = s.messages ++ ms := by
  induction ms with
  | nil => intro s; simp [sendAll]
  | cons m rest ih =>
    intro s
    show (sendAll (Sender.send false s m) rest).messages = _
    rw [ih, Sender.send_messages]
    simp

/-! ## Whole-system lemmas -/

theorem Config.messages_applyOp (c : Config T) (op : Op T) :
    ∃ t, (c.applyOp op).state.messages = c.state.messages ++ t := by
  cases op with
  | send p m => exact ⟨[m], Sender.send_messages p c.state m⟩
  | newReceiver => exact ⟨[], by simp [Config.applyOp, Receiver.new, SharedState.add_receiver]⟩
  | recv i =>
    refine ⟨[], ?_⟩
    rw [List.append_nil]
    cases hget : c.receivers[i]? with
    | none => simp [Config.applyOp, hget]
    | some r =>
      cases hrec : r.receive c.state with
      | none => simp [Config.applyOp, hget, hrec]
      | some p => simp [Config.applyOp, hget, hrec]

theorem Config.state_recv (c : Config T) (i : Nat) :
    (c.applyOp (Op.recv i)).state = c.state := by
  cases hget : c.receivers[i]? with
  | none => simp [Config.applyOp, hget]
  | some r =>
    cases hrec : r.receive c.state with
    | none => simp [Config.applyOp, hget, hrec]
    | some p => simp [Config.applyOp, hget, hrec]

theorem Config.inv_applyOp {c : Config T} (h : c.Inv) (op : Op T) :
    (c.applyOp op).Inv := by
  cases op with
  | send p m =>
    intro r hr
    have hb := h r hr
    simp only [Config.applyOp] at hr ⊢
    rw [Sender.send_messages]
    simp
    omega
  | newReceiver =>
    intro r hr
    simp only [Config.applyOp, Receiver.new, SharedState.add_receiver] at hr ⊢
    rcases List.mem_append.1 hr with h1 | h2
    · exact h r h1
    · simp at h2
      subst h2
      simp
  | recv i =>
    intro r2 hr2
    rw [Config.state_recv]
    cases hget : c.receivers[i]? with
    | none => simp only [Config.applyOp, hget] at hr2; exact h r2 hr2
    | some r =>
      cases hrec : r.receive c.state with
      | none => simp only [Config.applyOp, hget, hrec] at hr2; exact h r2 hr2
      | some p =>
        obtain ⟨v, r1⟩ := p
        simp only [Config.applyOp, hget, hrec] at hr2
        rcases List.mem_or_eq_of_mem_set hr2 with h1 | h2
        · exact h r2 h1
        · subst h2
          obtain ⟨hlt, _, hidx, _⟩ := Receiver.receive_some hrec
          omega

theorem Config.inv_run (ops : List (Op T)) : (Config.run ops).Inv := by
  have key : ∀ (l : List (Op T)) (c : Config T), c.Inv → (l.foldl Config.applyOp c).Inv := by
    intro l
    induction l with
    | nil => intro c hc; exact hc
    | cons op rest ih =>
      intro c hc
      exact ih _ (Config.inv_applyOp hc op)
  refine key ops (Config.init T) ?_
  intro r hr
  simp [Config.init] at hr

theorem Config.cursor_mono {c : Config T} (op : Op T) (i : Nat) {r r1 : Receiver}
    (h : c.receivers[i]? = some r) (h1 : (c.applyOp op).receivers[i]? = some r1) :
    r.index ≤ r1.index ∧ r1.notify = r.notify := by
  cases op with
  | send p m =>
    simp only [Config.applyOp] at h1
    rw [h] at h1
    obtain rfl : r = r1 := by simpa using h1
    exact ⟨le_refl _, rfl⟩
  | newReceiver =>
    simp only [Config.applyOp] at h1
    have hlen : i < c.receivers.length := (List.getElem?_eq_some.1 h).1
    rw [List.getElem?_append_left hlen, h] at h1
    obtain rfl : r = r1 := by simpa using h1
    exact ⟨le_refl _, rfl⟩
  | recv j =>
    cases hget : c.receivers[j]? with
    | none =>
      simp only [Config.applyOp, hget] at h1
      rw [h] at h1
      obtain rfl : r = r1 := by simpa using h1
      exact ⟨le_refl _, rfl⟩
    | some rj =>
      cases hrec : rj.receive c.state with
      | none =>
        simp only [Config.applyOp, hget, hrec] at h1
        rw [h] at h1
        obtain rfl : r = r1 := by simpa using h1
        exact ⟨le_refl _, rfl⟩
      | some p =>
        obtain ⟨v, rj1⟩ := p
        simp only [Config.applyOp, hget, hrec] at h1
        by_cases hij : j = i
        · subst hij
          rw [h] at hget
          obtain rfl : r = rj := by simpa using hget
          have hlen : j < c.receivers.length := (List.getElem?_eq_some.1 h).1
          rw [List.getElem?_set_self hlen] at h1
          obtain rfl : rj1 = r1 := by simpa using h1
          obtain ⟨_, _, hidx, hnot⟩ := Receiver.receive_some hrec
          exact ⟨by omega, hnot⟩
        · rw [List.getElem?_set_ne hij] at h1
          rw [h] at h1
          obtain rfl : r = r1 := by simpa using h1
          exact ⟨le_refl _, rfl⟩

theorem Config.condvars_applyOp (c : Config T) (op : Op T) :
    c.state.condvars.length ≤ (c.applyOp op).state.condvars.length := by
  cases op with
  | send p m =>
    simp only [Config.applyOp]
    rw [Sender.send_condvars]
    simp
  | newReceiver =>
    simp only [Config.applyOp, Receiver.new, SharedState.add_receiver]
    simp
  | recv i =>
    rw [Config.state_recv]

/-! ## Lemmas about the compare-and-advance retry loop -/

theorem runAttempts_cons_eq (c o : Nat) (rest : List Nat) (ho : o = c) :
    runAttempts c (o :: rest) =
      (c :: (runAttempts (c + 1) rest).1, (runAttempts (c + 1) rest).2) := by
  subst ho
  simp [runAttempts, cas]

theorem runAttempts_cons_ne (c o : Nat) (rest : List Nat) (ho : o ≠ c) :
    runAttempts c (o :: rest) = runAttempts c rest := by
  simp [runAttempts, cas, ho]

theorem runAttempts_spec :
    ∀ (os : List Nat) (c : Nat),
      (runAttempts c os).1 = List.range' c ((runAttempts c os).2 - c) ∧
        c ≤ (runAttempts c os).2 := by
  intro os
  induction os with
  | nil => intro c; simp [runAttempts]
  | cons o rest ih =>
    intro c
    by_cases ho : o = c
    · rw [runAttempts_cons_eq c o rest ho]
      obtain ⟨ih1, ih2⟩ := ih (c + 1)
      refine ⟨?_, by simp; omega⟩
      simp only [ih1]
      have hsub : (runAttempts (c + 1) rest).2 - c =
          ((runAttempts (c + 1) rest).2 - (c + 1)) + 1 := by omega
      rw [hsub, List.range'_succ]
    · rw [runAttempts_cons_ne c o rest ho]
      exact ih c

/-! ## Claim theorems -/

/-- C1: for every channel whose log already holds the `L.length` messages `L`,
a receiver created afterwards has its cursor initialized to 0 and, even when
further messages `extra` are sent after its creation, its first `L.length`
receive calls return exactly `L`, in the order the messages were appended,
before any message sent after its creation can be returned. -/
theorem C1_replay_completeness (T : Type) (L extra : List T) (cv : List Bool) :
    ((Receiver.new (SharedState.mk L cv)).2).index = 0 ∧
    ((Receiver.new (SharedState.mk L cv)).2).receiveN
        (sendAll (Receiver.new (SharedState.mk L cv)).1 extra) L.length =
      some (L, { (Receiver.new (SharedState.mk L cv)).2 with index := L.length }) := by
  have hnew : Receiver.new (SharedState.mk L cv) =
      (SharedState.mk L (cv ++ [false]), Receiver.mk cv.length 0) := rfl
  rw [hnew]
  refine ⟨rfl, ?_⟩
  have hmsg : (sendAll (SharedState.mk L (cv ++ [false])) extra).messages = L ++ extra := by
    rw [sendAll_messages]
  have hle : (Receiver.mk cv.length 0).index + L.length ≤
      (sendAll (SharedState.mk L (cv ++ [false])) extra).messages.length := by
    rw [hmsg]
    simp
  rw [Receiver.receiveN_of_le L.length _ hle, hmsg]
  simp [List.take_left]

/-- C2: for every receiver and every sequence of successful receive calls,
the values returned are the log entries at consecutive, strictly increasing
cursor indices starting at the cursor held by the receiver (0 for a fresh receiver):
the `j`-th delivered value is the entry at index `cursor + j`, so no index is
skipped, delivered twice, or delivered out of order. -/
theorem C2_receive_order (T : Type) (s : SharedState T) (k : Nat) (r r2 : Receiver)
    (vs : List T) (h : r.receiveN s k = some (vs, r2)) :
    vs = (s.messages.drop r.index).take k ∧
    r2.index = r.index + k ∧
    (∀ j, j < k → vs[j]? = s.messages[r.index + j]?) ∧
    (∀ s1 : SharedState T, ((Receiver.new s1).2).index = 0) := by
  obtain ⟨h1, h2, _⟩ := Receiver.receiveN_some k r r2 vs h
  refine ⟨h1, h2, ?_, fun s1 => rfl⟩
  intro j hj
  rw [h1, List.getElem?_take, if_pos hj, List.getElem?_drop]

/-- Witness for C2 at a concrete input: two receives on the log
`[10, 20, 30]` starting from cursor 0 deliver `[10, 20]`. -/
theorem C2_receive_order_witness :
    ((Receiver.mk 0 0).receiveN (SharedState.mk [10, 20, 30] ([] : List Bool)) 2 =
        some ([10, 20], Receiver.mk 0 2)) ∧
    (([10, 20] : List Nat) = (([10, 20, 30] : List Nat).drop 0).take 2 ∧
      (2 : Nat) = 0 + 2 ∧
      (∀ j, j < 2 → ([10, 20] : List Nat)[j]? = ([10, 20, 30] : List Nat)[0 + j]?) ∧
      (∀ s1 : SharedState Nat, ((Receiver.new s1).2).index = 0)) :=
  ⟨rfl, C2_receive_order Nat (SharedState.mk [10, 20, 30] []) 2 (Receiver.mk 0 0)
      (Receiver.mk 0 2) [10, 20] rfl⟩

/-- C3: a receiver whose cursor is strictly below the log length (Draining
state) has its next receive return the entry at the cursor immediately
(`some`, never the suspending branch), advancing the cursor by exactly 1, and
the outcome does not depend on the wake-handle registry at all. -/
theorem C3_draining_immediate (T : Type) (s : SharedState T) (r : Receiver)
    (h : r.index < s.messages.length) :
    (∃ v, r.receive s = some (v, Receiver.mk r.notify (r.index + 1)) ∧
        s.messages[r.index]? = some v) ∧
    (∀ cv : List Bool, r.receive (SharedState.mk s.messages cv) = r.receive s) := by
  refine ⟨⟨s.messages[r.index], ?_, List.getElem?_eq_getElem h⟩, fun cv => rfl⟩
  rw [Receiver.receive_eq_some h]

/-- Witness for C3 at a concrete input: cursor 0 on the one-entry log `[5]`
receives 5 at once. -/
theorem C3_draining_immediate_witness :
    ((0 : Nat) < 1) ∧
    ((∃ v, (Receiver.mk 0 0).receive (SharedState.mk [5] ([true] : List Bool)) =
          some (v, Receiver.mk 0 1) ∧ ([5] : List Nat)[0]? = some v) ∧
      (∀ cv : List Bool, (Receiver.mk 0 0).receive (SharedState.mk [5] cv) =
          (Receiver.mk 0 0).receive (SharedState.mk [5] [true]))) :=
  ⟨by decide,
   C3_draining_immediate Nat (SharedState.mk [5] [true]) (Receiver.mk 0 0) (by decide)⟩

/-- C4: a receiver whose cursor equals the log length (Waiting state) cannot
return from a receive attempt (`none`, the suspending branch); a send keeps
the registry size and signals every wake handle in it after the append, and
after that send the next check made by the suspended receiver observes the new length
and returns the newly appended message. -/
theorem C4_waiting_wakeup (T : Type) (s : SharedState T) (r : Receiver) (m : T) (p : Bool)
    (h : r.index = s.messages.length) :
    r.receive s = none ∧
    (Sender.send p s m).condvars.length = s.condvars.length ∧
    (∀ k, k < (Sender.send p s m).condvars.length →
        (Sender.send p s m).condvars[k]? = some true) ∧
    r.receive (Sender.send p s m) = some (m, Receiver.mk r.notify (r.index + 1)) := by
  refine ⟨Receiver.receive_eq_none (le_of_eq h.symm), ?_, ?_, ?_⟩
  · rw [Sender.send_condvars]
    simp
  · intro k hk
    rw [Sender.send_condvars] at hk ⊢
    rw [List.length_map] at hk
    rw [List.getElem?_map, List.getElem?_eq_getElem hk]
    rfl
  · have hlt : r.index < (Sender.send p s m).messages.length := by
      rw [Sender.send_messages]
      simp
      omega
    have hv : (Sender.send p s m).messages[r.index]? = some m := by
      rw [Sender.send_messages, h, List.getElem?_concat_length]
    rw [List.getElem?_eq_getElem hlt] at hv
    have hveq : (Sender.send p s m).messages[r.index] = m := by
      injection hv
    rw [Receiver.receive_eq_some hlt, hveq]

/-- Witness for C4 at a concrete input: a receiver waiting on the empty log
suspends, and after `send 7` (even with a poisoned lock) it receives 7 and
the registered wake handle is signaled. -/
theorem C4_waiting_wakeup_witness :
    ((0 : Nat) = 0) ∧
    ((Receiver.mk 0 0).receive (SharedState.mk ([] : List Nat) [false]) = none ∧
      (Sender.send true (SharedState.mk ([] : List Nat) [false]) 7).condvars.length = 1 ∧
      (∀ k, k < (Sender.send true (SharedState.mk ([] : List Nat) [false]) 7).condvars.length →
          (Sender.send true (SharedState.mk ([] : List Nat) [false]) 7).condvars[k]? =
            some true) ∧
      (Receiver.mk 0 0).receive (Sender.send true (SharedState.mk ([] : List Nat) [false]) 7) =
        some (7, Receiver.mk 0 1)) :=
  ⟨rfl, C4_waiting_wakeup Nat (SharedState.mk [] [false]) (Receiver.mk 0 0) 7 true rfl⟩

/-- C5: in every execution (every operation sequence from a fresh channel),
the cursor of every receiver stays between 0 and the log length (the lower bound
is inherent to `Nat`), no operation ever decreases a cursor, and every
successful receive increases the cursor by exactly 1. -/
theorem C5_cursor_invariant (T : Type) (ops : List (Op T)) (op : Op T) :
    (∀ r ∈ (Config.run ops).receivers,
        r.index ≤ (Config.run ops).state.messages.length) ∧
    (∀ i : Nat, ∀ r r1 : Receiver, (Config.run ops).receivers[i]? = some r →
        ((Config.run ops).applyOp op).receivers[i]? = some r1 → r.index ≤ r1.index) ∧
    (∀ (s : SharedState T) (r r1 : Receiver) (v : T),
        r.receive s = some (v, r1) → r1.index = r.index + 1) := by
  refine ⟨Config.inv_run ops, ?_, ?_⟩
  · intro i r r1 h h1
    exact (Config.cursor_mono op i h h1).1
  · intro s r r1 v h
    exact (Receiver.receive_some h).2.2.1

/-- Witness for C5 at a concrete run: send 3, create a receiver, then let it
receive once. -/
theorem C5_cursor_invariant_witness :
    ((0 : Nat) ≤ 1) ∧ ((0 : Nat) ≤ 1) ∧ ((1 : Nat) = 0 + 1) :=
  ⟨(C5_cursor_invariant Nat [Op.send false 3, Op.newReceiver] (Op.recv 0)).1
      (Receiver.mk 0 0) (by decide),
   (C5_cursor_invariant Nat [Op.send false 3, Op.newReceiver] (Op.recv 0)).2.1
      0 (Receiver.mk 0 0) (Receiver.mk 0 1) rfl rfl,
   (C5_cursor_invariant Nat [Op.send false 3, Op.newReceiver] (Op.recv 0)).2.2
      (SharedState.mk [3] []) (Receiver.mk 0 0) (Receiver.mk 0 1) 3 rfl⟩

/-- C6: the log is append-only: a send appends exactly one entry at the end;
every operation only ever extends the log on the right, so re-reading any
already-written index yields the identical value and the length never
decreases. -/
theorem C6_append_only (T : Type) (p : Bool) (s : SharedState T) (m : T)
    (c : Config T) (op : Op T) :
    (Sender.send p s m).messages = s.messages ++ [m] ∧
    (∃ t, (c.applyOp op).state.messages = c.state.messages ++ t) ∧
    (∀ i : Nat, i < c.state.messages.length →
        (c.applyOp op).state.messages[i]? = c.state.messages[i]?) ∧
    c.state.messages.length ≤ (c.applyOp op).state.messages.length := by
  refine ⟨Sender.send_messages p s m, Config.messages_applyOp c op, ?_, ?_⟩
  · intro i hi
    obtain ⟨t, ht⟩ := Config.messages_applyOp c op
    rw [ht, List.getElem?_append_left hi]
  · obtain ⟨t, ht⟩ := Config.messages_applyOp c op
    rw [ht]
    simp

/-- Witness for C6 at a concrete input: appending 2 to the log `[1]`. -/
theorem C6_append_only_witness :
    ((Sender.send false (SharedState.mk ([1] : List Nat) []) 2).messages = [1] ++ [2]) ∧
    ((0 : Nat) < 1) ∧
    ((Config.applyOp (Config.mk (SharedState.mk ([1] : List Nat) []) [])
        (Op.send false 2)).state.messages[0]? =
      (SharedState.mk ([1] : List Nat) []).messages[0]?) :=
  ⟨(C6_append_only Nat false ⟨[1], []⟩ 2 ⟨⟨[1], []⟩, []⟩ (Op.send false 2)).1,
   by decide,
   (C6_append_only Nat false ⟨[1], []⟩ 2 ⟨⟨[1], []⟩, []⟩ (Op.send false 2)).2.2.1 0
      (by decide)⟩

/-- C7: send is infallible even under lock poisoning: acquiring the poisoned
lock recovers the guard (`into_inner`), the send behaves identically to a
send under a healthy lock, and the append plus wake fan-out still complete,
leaving the state well-formed for subsequent operations. -/
theorem C7_send_poison_recovery (T : Type) (s : SharedState T) (m : T) (p : Bool) :
    Sender.send true s m = Sender.send false s m ∧
    (mutexLock true s).unwrapOrRecover = s ∧
    (Sender.send p s m).messages = s.messages ++ [m] ∧
    (Sender.send p s m).condvars = s.condvars.map (fun _ => true) := by
  exact ⟨rfl, rfl, Sender.send_messages p s m, Sender.send_condvars p s m⟩

/-- C8: under any schedule of racing compare-and-advance attempts on one
cursor of one receiver (each attempt carrying an arbitrarily stale observed
value), the set of claimed indices is exactly `0, 1, ..., final cursor - 1`
in order, so every index is claimed by exactly one winning attempt and no
index is claimed twice; a winning compare-exchange advances the cursor by 1
and a losing one (stale observed value) claims nothing and leaves the cursor
unchanged, forcing a retry with a re-read cursor. -/
theorem C8_cas_exactly_once (os : List Nat) (i : Nat) :
    (runAttempts 0 os).1 = List.range (runAttempts 0 os).2 ∧
    (runAttempts 0 os).1.count i ≤ 1 ∧
    (∀ c o : Nat, (cas c o).1 = some o → (cas c o).2 = c + 1 ∧ o = c) ∧
    (∀ c o : Nat, (cas c o).1 = none → (cas c o).2 = c ∧ o ≠ c) := by
  have h := runAttempts_spec os 0
  have h1 : (runAttempts 0 os).1 = List.range (runAttempts 0 os).2 := by
    rw [h.1, Nat.sub_zero, List.range_eq_range']
  refine ⟨h1, ?_, ?_, ?_⟩
  · rw [h1]
    have hnd := List.nodup_range (runAttempts 0 os).2
    rw [List.nodup_iff_count_le_one] at hnd
    exact hnd i
  · intro c o hc
    by_cases ho : o = c
    · subst ho
      simp [cas]
    · rw [cas, if_neg ho] at hc
      exact absurd hc (by simp)
  · intro c o hc
    by_cases ho : o = c
    · subst ho
      simp [cas] at hc
    · rw [cas, if_neg ho]
      exact ⟨rfl, ho⟩

/-- Witness for C8 at a concrete schedule: three attempts with observed
values 0, 0, 1 claim indices 0 and 1 exactly once. -/
theorem C8_cas_exactly_once_witness :
    ((runAttempts 0 [0, 0, 1]).1 = List.range (runAttempts 0 [0, 0, 1]).2) ∧
    ((runAttempts 0 [0, 0, 1]).1.count 0 ≤ 1) ∧
    ((cas 0 0).2 = 0 + 1 ∧ (0 : Nat) = 0) ∧
    ((cas 1 0).2 = 1 ∧ (0 : Nat) ≠ 1) :=
  ⟨(C8_cas_exactly_once [0, 0, 1] 0).1,
   (C8_cas_exactly_once [0, 0, 1] 0).2.1,
   (C8_cas_exactly_once [0, 0, 1] 0).2.2.1 0 0 rfl,
   (C8_cas_exactly_once [0, 0, 1] 0).2.2.2 1 0 rfl⟩

/-- C9: receive is read-only with respect to shared state: a receive attempt
leaves the shared state (log contents, log length, and wake-handle registry)
unchanged, leaves the cursor of every other receiver unchanged, and the delivered
value is a clone of the entry that remains stored at the cursor index. -/
theorem C9_receive_frame (T : Type) (c : Config T) (i : Nat)
    (s : SharedState T) (r r1 : Receiver) (v : T) :
    (c.applyOp (Op.recv i)).state = c.state ∧
    (∀ j : Nat, j ≠ i → (c.applyOp (Op.recv i)).receivers[j]? = c.receivers[j]?) ∧
    (r.receive s = some (v, r1) →
      s.messages[r.index]? = some v ∧ r1.notify = r.notify) := by
  refine ⟨Config.state_recv c i, ?_, ?_⟩
  · intro j hj
    cases hget : c.receivers[i]? with
    | none => simp [Config.applyOp, hget]
    | some ri =>
      cases hrec : ri.receive c.state with
      | none => simp [Config.applyOp, hget, hrec]
      | some q =>
        obtain ⟨w, ri1⟩ := q
        simp only [Config.applyOp, hget, hrec]
        exact List.getElem?_set_ne (Ne.symm hj)
  · intro h
    obtain ⟨_, hv, _, hnot⟩ := Receiver.receive_some h
    exact ⟨hv, hnot⟩

/-- Witness for C9 at a concrete input: one receiver receiving 4 from the
one-entry log leaves the state untouched. -/
theorem C9_receive_frame_witness :
    ((Config.applyOp (Config.mk (SharedState.mk ([4] : List Nat) []) [Receiver.mk 0 0])
        (Op.recv 0)).state = SharedState.mk ([4] : List Nat) []) ∧
    ((Config.applyOp (Config.mk (SharedState.mk ([4] : List Nat) []) [Receiver.mk 0 0])
        (Op.recv 0)).receivers[1]? =
      (Config.mk (SharedState.mk ([4] : List Nat) []) [Receiver.mk 0 0]).receivers[1]?) ∧
    (([4] : List Nat)[0]? = some 4 ∧ (0 : Nat) = 0) :=
  ⟨(C9_receive_frame Nat ⟨⟨[4], []⟩, [⟨0, 0⟩]⟩ 0 ⟨[4], []⟩ ⟨0, 0⟩ ⟨0, 1⟩ 4).1,
   (C9_receive_frame Nat ⟨⟨[4], []⟩, [⟨0, 0⟩]⟩ 0 ⟨[4], []⟩ ⟨0, 0⟩ ⟨0, 1⟩ 4).2.1 1
      (by decide),
   (C9_receive_frame Nat ⟨⟨[4], []⟩, [⟨0, 0⟩]⟩ 0 ⟨[4], []⟩ ⟨0, 0⟩ ⟨0, 1⟩ 4).2.2 rfl⟩

/-- C10: receiver construction appends exactly one fresh (unsignaled) wake
handle to the registry, the handle stored in the receiver is the registry
slot just appended (so a signal sent to the registry reaches it), the log
is left unchanged, and no operation ever shrinks the registry. -/
theorem C10_receiver_registration (T : Type) (s : SharedState T)
    (c : Config T) (op : Op T) (p : Bool) (m : T) :
    (Receiver.new s).1.condvars = s.condvars ++ [false] ∧
    (Receiver.new s).2.notify = s.condvars.length ∧
    (Receiver.new s).1.condvars[(Receiver.new s).2.notify]? = some false ∧
    (Receiver.new s).1.messages = s.messages ∧
    (Sender.send p (Receiver.new s).1 m).condvars[(Receiver.new s).2.notify]? =
      some true ∧
    c.state.condvars.length ≤ (c.applyOp op).state.condvars.length := by
  refine ⟨rfl, rfl, ?_, rfl, ?_, Config.condvars_applyOp c op⟩
  · show (s.condvars ++ [false])[s.condvars.length]? = some false
    exact List.getElem?_concat_length s.condvars false
  · rw [Sender.send_condvars]
    show ((s.condvars ++ [false]).map (fun _ => true))[s.condvars.length]? = some true
    rw [List.map_append]
    have hlen : (s.condvars.map (fun _ => true)).length = s.condvars.length :=
      List.length_map _ _
    rw [← hlen]
    exact List.getElem?_concat_length _ _

end ReplayChannel
